import Mathlib

/-!
Verification of the passw0rts credential vault core against its
specification.  The repository ships the CLI (`src/passw0rts/cli/main.py`),
the web layer (`src/passw0rts/web/app.py`) and the test suite; the core
package (`passw0rts/core`: EncryptionManager, StorageManager, PasswordEntry)
and the utility modules (`session_manager.py`, `usb_key_manager.py`) are not
part of the shipped sources, so those components are modelled from the
specification text, faithful to its words and to the shipped tests and
callers.  Byte strings are lists of naturals, timestamps are natural-number
ticks, and the operating-system entropy source is an explicit stream passed
to each operation.
-/

namespace Passw0rts

/-- Injective encoding of a byte list into one natural number, used to give
the ideal key-derivation function a concrete injective realisation. -/
def encodeList : List Nat → Nat
  | [] => 0
  | a :: as => Nat.pair a (encodeList as) + 1

theorem encodeList_injective : ∀ {l₁ l₂ : List Nat}, encodeList l₁ = encodeList l₂ → l₁ = l₂
  | [], [], _ => rfl
  | [], _ :: _, h => by simp [encodeList] at h
  | _ :: _, [], h => by simp [encodeList] at h
  | a :: as, b :: bs, h => by
    simp only [encodeList, Nat.add_right_cancel_iff] at h
    have hp := Nat.pair_eq_pair.mp h
    have ht := encodeList_injective hp.2
    rw [hp.1, ht]

/-- Modelled from the spec: `derive_key` applies a slow key-derivation
function over passphrase and salt, deterministic for identical inputs, with
distinct inputs yielding distinct keys (the ideal-KDF reading of "different
salts yield different keys with overwhelming probability").  Realised as an
injective pairing of the passphrase bytes and the salt bytes. -/
def deriveKeyFn (passphrase salt : List Nat) : Nat :=
  Nat.pair (encodeList passphrase) (encodeList salt)

theorem deriveKeyFn_inj {p p' s s' : List Nat}
    (h : deriveKeyFn p s = deriveKeyFn p' s') : p = p' ∧ s = s' := by
  have hp := Nat.pair_eq_pair.mp h
  exact ⟨encodeList_injective hp.1, encodeList_injective hp.2⟩

/-- Errors raised by the crypto engine: `keyNotSet` models the ValueError
raised when no key has been derived, `invalidTag` models the single
undifferentiated InvalidTag authentication failure. -/
inductive CryptoError where
  | keyNotSet
  | invalidTag
deriving DecidableEq, Repr

/-- Modelled from the spec: an AES-256-GCM ciphertext, idealised as a
symbolic authenticated-encryption term.  The payload carries the encrypted
bytes; the tag fields record the key, nonce and payload bound by the
authentication tag, so decryption succeeds exactly on honestly produced,
unmodified ciphertexts under the producing key and nonce. -/
structure GCMCipher (α : Type) where
  payload : α
  tagKey : Nat
  tagNonce : List Nat
  tagBody : α
deriving DecidableEq, Repr

/-- Modelled from the spec: authenticated encryption of a payload under a
key and nonce. -/
def aesgcmEncrypt {α : Type} (key : Nat) (nonce : List Nat) (pt : α) : GCMCipher α :=
  ⟨pt, key, nonce, pt⟩

/-- Modelled from the spec: authenticated decryption checks the tag binding
of key, nonce and payload and fails closed with the one undifferentiated
authentication-failure error otherwise. -/
def aesgcmDecrypt {α : Type} [DecidableEq α] (key : Nat) (c : GCMCipher α)
    (nonce : List Nat) : Except CryptoError α :=
  if c.tagKey = key ∧ c.tagNonce = nonce ∧ c.tagBody = c.payload then .ok c.payload
  else .error .invalidTag

theorem aesgcmDecrypt_encrypt {α : Type} [DecidableEq α] (key : Nat)
    (nonce : List Nat) (pt : α) :
    aesgcmDecrypt key (aesgcmEncrypt key nonce pt) nonce = .ok pt := by
  simp [aesgcmDecrypt, aesgcmEncrypt]

theorem aesgcmDecrypt_sound {α : Type} [DecidableEq α] {key : Nat}
    {c : GCMCipher α} {nonce : List Nat} {t : α}
    (h : aesgcmDecrypt key c nonce = .ok t) :
    c = aesgcmEncrypt key nonce t := by
  unfold aesgcmDecrypt at h
  split at h
  · rename_i hc
    cases h
    obtain ⟨h1, h2, h3⟩ := hc
    cases c
    simp_all [aesgcmEncrypt]
  · cases h

/-- Flip bit `r` of byte `j` of a byte list (identity when the index is out
of range), used to state single-bit tampering. -/
def flipAt : List Nat → Nat → Nat → List Nat
  | [], _, _ => []
  | b :: bs, 0, r => (b ^^^ 2 ^ r) :: bs
  | b :: bs, j + 1, r => b :: flipAt bs j r

/-- Flip the single bit at absolute position `i` of a byte list. -/
def flipBit (l : List Nat) (i : Nat) : List Nat := flipAt l (i / 8) (i % 8)

theorem xor_two_pow_ne (b r : Nat) : b ^^^ 2 ^ r ≠ b := by
  intro h
  have h0 : (b ^^^ 2 ^ r) ^^^ b = 0 := by rw [h, Nat.xor_self]
  have h1 : (b ^^^ 2 ^ r) ^^^ b = 2 ^ r := by
    rw [Nat.xor_comm b (2 ^ r), Nat.xor_assoc, Nat.xor_self, Nat.xor_zero]
  rw [h1] at h0
  exact (pow_pos (by norm_num : (0 : ℕ) < 2) r).ne' h0

theorem flipAt_ne : ∀ (l : List Nat) (j r : Nat), j < l.length → flipAt l j r ≠ l
  | [], j, _, hj => by simp at hj
  | b :: bs, 0, r, _ => by
    intro h
    exact xor_two_pow_ne b r (List.head_eq_of_cons_eq h)
  | b :: bs, j + 1, r, hj => by
    intro h
    have ht : flipAt bs j r = bs := List.tail_eq_of_cons_eq h
    exact flipAt_ne bs j r (by simpa using hj) ht

theorem flipBit_ne (l : List Nat) (i : Nat) (hi : i / 8 < l.length) :
    flipBit l i ≠ l :=
  flipAt_ne l (i / 8) (i % 8) hi

/-- Python text decoded to its character codes, the byte-level view the
crypto engine encrypts (the exact-roundtrip image of UTF-8 encoding). -/
def strBytes (s : String) : List Nat := s.data.map Char.toNat

/-- Partial inverse of `strBytes`: rebuild text from character codes. -/
def bytesStr (l : List Nat) : String := ⟨l.map Char.ofNat⟩

theorem bytesStr_strBytes (s : String) : bytesStr (strBytes s) = s := by
  cases s with
  | mk data =>
    simp only [bytesStr, strBytes, List.map_map]
    congr 1
    refine List.map_congr_left ?_ |>.trans (List.map_id data)
    intro c _
    exact Char.ofNat_toNat c

/-- Modelled from the spec: the crypto engine state.  `key` and `salt` are
absent until `derive_key` runs; `ctr` indexes the entropy stream, modelling
the successive draws of the operating-system randomness source. -/
structure EncryptionManager where
  key : Option Nat := none
  salt : Option (List Nat) := none
  ctr : Nat := 0
deriving DecidableEq, Repr

/-- Modelled from the spec: `derive_key(passphrase, salt?)` generates a
fresh random salt when none is given (the draw `saltRand` of the entropy
source), derives the key, and stores both. -/
def EncryptionManager.deriveKey (em : EncryptionManager) (saltRand : List Nat)
    (passphrase : List Nat) (saltArg : Option (List Nat)) :
    Nat × EncryptionManager :=
  let salt := saltArg.getD saltRand
  let k := deriveKeyFn passphrase salt
  (k, { em with key := some k, salt := some salt })

/-- Modelled from the spec: `encrypt(plaintext)` requires a key, draws a
fresh nonce from the entropy stream `trace` at the current counter, and
returns ciphertext and nonce. -/
def EncryptionManager.encrypt (em : EncryptionManager) (trace : Nat → List Nat)
    (pt : String) :
    Except CryptoError (GCMCipher (List Nat) × List Nat) × EncryptionManager :=
  match em.key with
  | none => (.error .keyNotSet, em)
  | some k =>
    let nonce := trace em.ctr
    (.ok (aesgcmEncrypt k nonce (strBytes pt), nonce), { em with ctr := em.ctr + 1 })

/-- Modelled from the spec: `decrypt(ciphertext, nonce)` requires a key and
fails with the undifferentiated authentication error on wrong key or
tampering. -/
def EncryptionManager.decrypt (em : EncryptionManager)
    (c : GCMCipher (List Nat)) (nonce : List Nat) : Except CryptoError String :=
  match em.key with
  | none => .error .keyNotSet
  | some k => (aesgcmDecrypt k c nonce).map bytesStr

/-- Modelled from the spec: the text-safe envelope combining nonce and
ciphertext produced by `encrypt_to_base64`. -/
def EncryptionManager.encryptEnvelope (em : EncryptionManager)
    (trace : Nat → List Nat) (pt : String) :
    Except CryptoError (List Nat × GCMCipher (List Nat)) × EncryptionManager :=
  match em.encrypt trace pt with
  | (.ok (c, nonce), em') => (.ok (nonce, c), em')
  | (.error e, em') => (.error e, em')

/-- Modelled from the spec: `decrypt_from_base64` splits the envelope back
into nonce and ciphertext and decrypts. -/
def EncryptionManager.decryptEnvelope (em : EncryptionManager)
    (env : List Nat × GCMCipher (List Nat)) : Except CryptoError String :=
  em.decrypt env.2 env.1

/-- Modelled from the spec: `clear()` drops the held key and salt from
memory. -/
def EncryptionManager.clear (em : EncryptionManager) : EncryptionManager :=
  { em with key := none, salt := none }

/-- Modelled from the spec: one stored credential.  An empty `id` stands for
an absent id (the storage engine assigns one on add); optional fields are
`Option`; timestamps are natural ticks of a monotone clock. -/
structure PasswordEntry where
  id : String := ""
  title : String := ""
  username : Option String := none
  password : String := ""
  url : Option String := none
  category : String := "general"
  notes : Option String := none
  tags : List String := []
  created_at : Nat := 0
  updated_at : Nat := 0
deriving DecidableEq, Repr

/-- Errors raised by the storage engine, matching the ValueError messages
the tests pin down: wrong master password on initialize, operations before
initialize, and update of an absent id. -/
inductive StorageError where
  | invalidMasterPassword
  | notInitialized
  | entryNotFound
deriving DecidableEq, Repr

/-- Modelled from the spec: the on-disk vault container holding salt, nonce
and the authenticated ciphertext of the serialized entry collection (the
serialization layer is carried symbolically as the entry list itself). -/
structure VaultFile where
  salt : List Nat
  nonce : List Nat
  cipher : GCMCipher (List PasswordEntry)
deriving DecidableEq, Repr

/-- Modelled from the spec: the storage engine state — derived key, salt and
the decrypted in-memory entry collection in insertion order. -/
structure StorageManager where
  key : Option Nat := none
  salt : Option (List Nat) := none
  entries : List PasswordEntry := []
deriving DecidableEq, Repr

/-- Modelled from the spec: `initialize(passphrase)`.  A missing file means
a new vault: draw a random salt, derive the key, persist an empty
collection at once.  An existing file is read, the key derived from its
salt, and the ciphertext decrypted; an authentication failure surfaces as
the recoverable wrong-passphrase error and the engine stays uninitialized. -/
def StorageManager.initVault (pw : List Nat) (file : Option VaultFile)
    (saltRand nonceRand : List Nat) :
    Except StorageError (StorageManager × VaultFile) :=
  match file with
  | none =>
    let k := deriveKeyFn pw saltRand
    .ok (⟨some k, some saltRand, []⟩, ⟨saltRand, nonceRand, aesgcmEncrypt k nonceRand []⟩)
  | some f =>
    let k := deriveKeyFn pw f.salt
    match aesgcmDecrypt k f.cipher f.nonce with
    | .ok es => .ok (⟨some k, some f.salt, es⟩, f)
    | .error _ => .error .invalidMasterPassword

/-- `list_entries()`: the current in-memory collection. -/
def StorageManager.listEntries (sm : StorageManager) : List PasswordEntry :=
  sm.entries

/-- `get_entry(id)`: lookup by id. -/
def StorageManager.getEntry (sm : StorageManager) (i : String) :
    Option PasswordEntry :=
  sm.entries.find? (fun e => e.id == i)

/-- Modelled from the spec: `add_entry(entry)` assigns an id when absent
(the fresh draw `freshId`), stamps both timestamps to now, inserts, persists
synchronously under a fresh nonce, and returns the id. -/
def StorageManager.addEntry (sm : StorageManager) (e : PasswordEntry)
    (freshId : String) (now : Nat) (nonce : List Nat) :
    Except StorageError (String × StorageManager × VaultFile) :=
  match sm.key with
  | none => .error .notInitialized
  | some k =>
    let i := if e.id = "" then freshId else e.id
    let e2 := { e with id := i, created_at := now, updated_at := now }
    let es := sm.entries ++ [e2]
    .ok (i, { sm with entries := es }, ⟨sm.salt.getD [], nonce, aesgcmEncrypt k nonce es⟩)

/-- Modelled from the spec: `update_entry(id, new_entry)` fails not-found
when the id is absent; otherwise it keeps the stored id and created_at,
adopts every other field of the replacement (optional fields included),
stamps updated_at to now, and persists under a fresh nonce. -/
def StorageManager.updateEntry (sm : StorageManager) (i : String)
    (e : PasswordEntry) (now : Nat) (nonce : List Nat) :
    Except StorageError (StorageManager × VaultFile) :=
  match sm.key with
  | none => .error .notInitialized
  | some k =>
    if sm.entries.any (fun x => x.id == i) then
      let es := sm.entries.map (fun old =>
        if old.id == i then
          { e with id := old.id, created_at := old.created_at, updated_at := now }
        else old)
      .ok ({ sm with entries := es }, ⟨sm.salt.getD [], nonce, aesgcmEncrypt k nonce es⟩)
    else .error .entryNotFound

/-- Case-folded character-list containment helpers, after the Python
substring test `query.lower() in field.lower()`: `leadMatch` checks a match
at the head, `hasSub` anywhere. -/
def leadMatch : List Char → List Char → Bool
  | [], _ => true
  | _ :: _, [] => false
  | a :: as, b :: bs => a == b && leadMatch as bs

def hasSub (needle : List Char) : List Char → Bool
  | [] => needle.isEmpty
  | b :: t => leadMatch needle (b :: t) || hasSub needle t

/-- Substring test over strings. -/
def strContains (hay needle : String) : Bool := hasSub needle.data hay.data

/-- Optional text fields read as the empty string when absent. -/
def fieldText (o : Option String) : String := o.getD ""

/-- Modelled from the spec: the per-entry search predicate —
case-insensitive substring match over title, username, url, category, notes
and tags. -/
def entryMatches (q : String) (e : PasswordEntry) : Bool :=
  strContains e.title.toLower q.toLower ||
  strContains (fieldText e.username).toLower q.toLower ||
  strContains (fieldText e.url).toLower q.toLower ||
  strContains e.category.toLower q.toLower ||
  strContains (fieldText e.notes).toLower q.toLower ||
  e.tags.any (fun t => strContains t.toLower q.toLower)

/-- Modelled from the spec: `search_entries(query)` filters the collection
by the search predicate. -/
def StorageManager.searchEntries (sm : StorageManager) (q : String) :
    List PasswordEntry :=
  sm.entries.filter (entryMatches q)

/-- Modelled from the spec: the session lock state machine — stored state,
last-activity timestamp, timeout duration. -/
structure SessionManager where
  timeout_seconds : Nat
  locked : Bool := true
  last_activity : Nat := 0
deriving DecidableEq, Repr

/-- Modelled from the spec: `unlock()` moves to Unlocked and resets
last_activity to now. -/
def SessionManager.unlock (s : SessionManager) (now : Nat) : SessionManager :=
  { s with locked := false, last_activity := now }

/-- Modelled from the spec: `is_locked` is a lazy query — true when the
stored state is Locked, or when elapsed time since last_activity exceeds
the timeout. -/
def SessionManager.is_locked (s : SessionManager) (now : Nat) : Bool :=
  s.locked || decide (s.timeout_seconds < now - s.last_activity)

/-- Modelled from the spec: `update_activity()` refreshes last_activity
while unlocked and unexpired, and is a no-op while locked. -/
def SessionManager.update_activity (s : SessionManager) (now : Nat) :
    SessionManager :=
  if s.is_locked now then s else { s with last_activity := now }

/-- Modelled from the spec: `lock()` is an explicit transition to Locked. -/
def SessionManager.lock (s : SessionManager) : SessionManager :=
  { s with locked := true }

/-- The global CLI session context of `cli/main.py` (class AppContext):
whether authentication succeeded, whether a storage engine is attached, and
the session machine. -/
structure AppContext where
  authenticated : Bool := false
  hasStorage : Bool := false
  session : Option SessionManager := none
deriving DecidableEq, Repr

/-- The CLI `_auto_authenticate` path of `cli/main.py`: on success (the
outcome `ok` of the passphrase and TOTP prompts) it attaches storage, marks
the context authenticated and installs a freshly unlocked session with the
default 300-second timeout; on failure it returns false and leaves the
context as it was. -/
def autoAuthenticate (ok : Bool) (now : Nat) (c : AppContext) :
    Bool × AppContext :=
  if ok then
    (true, ⟨true, true, some (SessionManager.unlock ⟨300, true, 0⟩ now)⟩)
  else (false, c)

/-- The CLI `_check_authenticated` gate of `cli/main.py`: re-authenticate
when not yet authenticated or storage is missing, then re-authenticate when
the session reads locked; every data-serving command returns without
serving entries when this gate yields false. -/
def checkAuthenticated (ok1 ok2 : Bool) (now : Nat) (c : AppContext) :
    Bool × AppContext :=
  let s1 := if c.authenticated = false ∨ c.hasStorage = false then
      autoAuthenticate ok1 now c
    else (true, c)
  if s1.1 = false then (false, s1.2)
  else
    match s1.2.session with
    | some s =>
      if s.is_locked now then autoAuthenticate ok2 now s1.2 else (true, s1.2)
    | none => (true, s1.2)

/-- Modelled from the spec: a USB token identity — 16-bit vendor and product
ids, serial number, and informational manufacturer and product labels. -/
structure USBDevice where
  vendor_id : Nat
  product_id : Nat
  serial_number : String
  manufacturer : String := ""
  product : String := ""
deriving DecidableEq, Repr

/-- Modelled from the spec: two token identities match iff vendor_id,
product_id and serial_number are all equal; the manufacturer and product
strings are excluded from matching. -/
def USBDevice.matches (a b : USBDevice) : Bool :=
  a.vendor_id == b.vendor_id && a.product_id == b.product_id &&
    a.serial_number == b.serial_number

/-- The per-entry object of the web list response assembled by
`get_entries` in `web/app.py`: only id, title, username, url, category and
the two timestamps — no password, notes or tags field exists. -/
structure EntryListItem where
  id : String
  title : String
  username : Option String
  url : Option String
  category : String
  created_at : Nat
  updated_at : Nat
deriving DecidableEq, Repr

/-- The field projection `get_entries` applies to each entry. -/
def entryListItem (e : PasswordEntry) : EntryListItem :=
  ⟨e.id, e.title, e.username, e.url, e.category, e.created_at, e.updated_at⟩

/-- The error responses of the web API relevant to the entries route. -/
inductive WebError where
  | notAuthenticated
deriving DecidableEq, Repr

/-- The GET `/api/entries` handler of `web/app.py`: reject when the session
is not authenticated; otherwise search when a non-empty query parameter is
present (Python truthiness sends an empty query to the list branch), list
otherwise, and project each entry to the reduced response object. -/
def getEntries (authenticated : Bool) (q : Option String)
    (sm : StorageManager) : Except WebError (List EntryListItem) :=
  if authenticated then
    let entries :=
      match q with
      | some s => if s.isEmpty then sm.listEntries else sm.searchEntries s
      | none => sm.listEntries
    .ok (entries.map entryListItem)
  else .error .notAuthenticated

/-- A heap of entry lists, used to model the object identities behind
`list_entries`: the engine owns one cell, every returned snapshot is a
fresh cell. -/
structure EntryHeap where
  next : Nat
  cells : Nat → List PasswordEntry

/-- Allocate a fresh cell holding `v`. -/
def EntryHeap.alloc (h : EntryHeap) (v : List PasswordEntry) :
    Nat × EntryHeap :=
  (h.next, ⟨h.next + 1, fun j => if j = h.next then v else h.cells j⟩)

/-- Overwrite cell `r` with `v` — the shape of any in-place caller mutation
of a list it holds (sorting, element replacement, clearing). -/
def EntryHeap.write (h : EntryHeap) (r : Nat) (v : List PasswordEntry) :
    EntryHeap :=
  ⟨h.next, fun j => if j = r then v else h.cells j⟩

/-- The storage engine seen as a heap object: it holds a reference to its
internal entry collection. -/
structure StorageObj where
  entriesRef : Nat

/-- Modelled from the spec: `list_entries()` returns a snapshot — a freshly
allocated list holding the current entries, distinct from the internal
collection cell. -/
def listEntriesRef (h : EntryHeap) (s : StorageObj) : Nat × EntryHeap :=
  h.alloc (h.cells s.entriesRef)

/-- `get_entry` against the heap model: lookup in the internal cell. -/
def getEntryRef (h : EntryHeap) (s : StorageObj) (i : String) :
    Option PasswordEntry :=
  (h.cells s.entriesRef).find? (fun e => e.id == i)

/-- A sequence of `n` repeated encrypt calls on one manager, collecting the
results in call order. -/
def encryptCalls (trace : Nat → List Nat) (pt : String) :
    EncryptionManager → Nat →
      List (Except CryptoError (GCMCipher (List Nat) × List Nat)) ×
        EncryptionManager
  | em, 0 => ([], em)
  | em, n + 1 =>
    let r := em.encrypt trace pt
    let rest := encryptCalls trace pt r.2 n
    (r.1 :: rest.1, rest.2)

theorem encryptCalls_get (trace : Nat → List Nat) (pt : String) (k : Nat) :
    ∀ (em : EncryptionManager) (n i : Nat), em.key = some k → i < n →
      (encryptCalls trace pt em n).1.get? i =
        some (.ok (aesgcmEncrypt k (trace (em.ctr + i)) (strBytes pt),
          trace (em.ctr + i))) := by
  intro em n
  induction n generalizing em with
  | zero => intro i _ hi; exact absurd hi (Nat.not_lt_zero i)
  | succ m ih =>
    intro i hk hi
    obtain ⟨key, salt, ctr⟩ := em
    simp only at hk
    subst hk
    cases i with
    | zero =>
      simp [encryptCalls, EncryptionManager.encrypt]
    | succ i' =>
      have hrec := ih ⟨some k, salt, ctr + 1⟩ i' rfl
        (Nat.lt_of_succ_lt_succ hi)
      simp only [encryptCalls, EncryptionManager.encrypt]
      simpa [Nat.add_assoc, Nat.add_comm 1 i'] using hrec

/-- Run a batch of `add_entry` calls, each with its own fresh id, timestamp
and nonce draw, threading the storage state and the on-disk file. -/
def addAll : StorageManager → VaultFile →
    List (PasswordEntry × String × Nat × List Nat) →
    Except StorageError (StorageManager × VaultFile)
  | sm, f, [] => .ok (sm, f)
  | sm, _, (e, i, t, n) :: rest =>
    match sm.addEntry e i t n with
    | .ok (_, sm2, f2) => addAll sm2 f2 rest
    | .error er => .error er

/-- The persistence invariant between an open storage engine and its file:
the held key is the one derived from the passphrase and the file salt, the
held salt is the file salt, and the file ciphertext is the authenticated
encryption of the current collection. -/
def goodState (pw : List Nat) (sm : StorageManager) (f : VaultFile) : Prop :=
  sm.key = some (deriveKeyFn pw f.salt) ∧ sm.salt = some f.salt ∧
  f.cipher = aesgcmEncrypt (deriveKeyFn pw f.salt) f.nonce sm.entries

theorem addEntry_good {pw : List Nat} {sm : StorageManager} {f : VaultFile}
    (hg : goodState pw sm f) (e : PasswordEntry) (i : String) (t : Nat)
    (n : List Nat) :
    ∃ j sm2 f2, sm.addEntry e i t n = .ok (j, sm2, f2) ∧
      goodState pw sm2 f2 ∧
      sm2.entries = sm.entries ++
        [{ e with id := j, created_at := t, updated_at := t }] := by
  obtain ⟨hk, hs, _⟩ := hg
  refine ⟨if e.id = "" then i else e.id,
    { sm with entries := sm.entries ++
        [{ e with
            id := (if e.id = "" then i else e.id),
            created_at := t,
            updated_at := t }] },
    ⟨f.salt, n, aesgcmEncrypt (deriveKeyFn pw f.salt) n (sm.entries ++
        [{ e with
            id := (if e.id = "" then i else e.id),
            created_at := t,
            updated_at := t }])⟩, ?_, ?_, ?_⟩
  · simp [StorageManager.addEntry, hk, hs]
  · exact ⟨hk, by simp [hs], rfl⟩
  · rfl

theorem addAll_good {pw : List Nat} :
    ∀ (batch : List (PasswordEntry × String × Nat × List Nat))
      (sm : StorageManager) (f : VaultFile), goodState pw sm f →
      ∃ sm2 f2, addAll sm f batch = .ok (sm2, f2) ∧ goodState pw sm2 f2 ∧
        sm2.entries.length = sm.entries.length + batch.length := by
  intro batch
  induction batch with
  | nil => intro sm f hg; exact ⟨sm, f, rfl, hg, rfl⟩
  | cons b rest ih =>
    intro sm f hg
    obtain ⟨e, i, t, n⟩ := b
    obtain ⟨j, sm2, f2, hadd, hg2, hen⟩ := addEntry_good hg e i t n
    obtain ⟨sm3, f3, hrun, hg3, hlen⟩ := ih sm2 f2 hg2
    refine ⟨sm3, f3, ?_, hg3, ?_⟩
    · simp [addAll, hadd, hrun]
    · rw [hlen, hen]
      simp [Nat.add_assoc, Nat.add_comm 1 rest.length]

/-- Agreement of two entries on every field except the stored password. -/
def samePublic (e1 e2 : PasswordEntry) : Prop :=
  e1.id = e2.id ∧ e1.title = e2.title ∧ e1.username = e2.username ∧
  e1.url = e2.url ∧ e1.category = e2.category ∧ e1.notes = e2.notes ∧
  e1.tags = e2.tags ∧ e1.created_at = e2.created_at ∧
  e1.updated_at = e2.updated_at

theorem entryListItem_samePublic {e1 e2 : PasswordEntry}
    (h : samePublic e1 e2) : entryListItem e1 = entryListItem e2 := by
  obtain ⟨h1, h2, h3, h4, h5, h6, h7, h8, h9⟩ := h
  simp [entryListItem, h1, h2, h3, h4, h5, h6, h7, h8, h9]

theorem entryMatches_samePublic (q : String) {e1 e2 : PasswordEntry}
    (h : samePublic e1 e2) : entryMatches q e1 = entryMatches q e2 := by
  obtain ⟨h1, h2, h3, h4, h5, h6, h7, h8, h9⟩ := h
  simp [entryMatches, h2, h3, h4, h5, h6, h7]

theorem searchFilter_samePublic (q : String) :
    ∀ {l1 l2 : List PasswordEntry}, List.Forall₂ samePublic l1 l2 →
      (l1.filter (entryMatches q)).map entryListItem =
        (l2.filter (entryMatches q)).map entryListItem := by
  intro l1 l2 h
  induction h with
  | nil => rfl
  | cons hab _ ih =>
    rename_i a b as bs _
    by_cases hm : entryMatches q a = true
    · have hm2 : entryMatches q b = true := entryMatches_samePublic q hab ▸ hm
      simp [List.filter_cons, hm, hm2, ih, entryListItem_samePublic hab]
    · have hm2 : ¬ entryMatches q b = true := by
        rw [← entryMatches_samePublic q hab]; exact hm
      simp only [List.filter_cons]
      rw [if_neg hm, if_neg hm2]
      exact ih

theorem listMap_samePublic :
    ∀ {l1 l2 : List PasswordEntry}, List.Forall₂ samePublic l1 l2 →
      l1.map entryListItem = l2.map entryListItem := by
  intro l1 l2 h
  induction h with
  | nil => rfl
  | cons hab _ ih => simp [entryListItem_samePublic hab, ih]

/-- Pointwise-trivial update maps: a helper for the update-entry theorem. -/
theorem map_id_of_none (i : String) (g : PasswordEntry → PasswordEntry) :
    ∀ l : List PasswordEntry, (∀ x ∈ l, x.id ≠ i) →
      l.map (fun x => if x.id == i then g x else x) = l := by
  intro l h
  induction l with
  | nil => rfl
  | cons a t ih =>
    have ha : ¬ a.id == i := by
      simp only [beq_iff_eq]
      exact h a (List.mem_cons_self a t)
    simp only [List.map_cons, Bool.not_eq_true] at *
    rw [if_neg (by simp [ha]), ih (fun x hx => h x (List.mem_cons_of_mem a hx))]

/-! ### Claim theorems -/

/-- C8: two USB token identities match exactly when vendor id, product id
and serial number agree, and identities sharing that triple match whatever
their manufacturer and product strings are. -/
theorem C8_usb_token_matching (a b : USBDevice) :
    (USBDevice.matches a b = true ↔
      a.vendor_id = b.vendor_id ∧ a.product_id = b.product_id ∧
        a.serial_number = b.serial_number) ∧
    (∀ v p sn m1 pr1 m2 pr2,
      USBDevice.matches ⟨v, p, sn, m1, pr1⟩ ⟨v, p, sn, m2, pr2⟩ = true) := by
  constructor
  · simp [USBDevice.matches, and_assoc]
  · intro v p sn m1 pr1 m2 pr2
    simp [USBDevice.matches]

/-- C7: with no key set, encrypt and decrypt fail with the configuration
error and produce nothing, and after clear — which drops key and salt —
every encrypt and decrypt call fails exactly as on a never-initialized
engine. -/
theorem C7_no_key_and_clear (em : EncryptionManager) (trace : Nat → List Nat)
    (pt : String) (c : GCMCipher (List Nat)) (nonce : List Nat)
    (hk : em.key = none) :
    em.encrypt trace pt = (.error .keyNotSet, em) ∧
    em.decrypt c nonce = .error .keyNotSet ∧
    ∀ em2 : EncryptionManager,
      em2.clear.key = none ∧ em2.clear.salt = none ∧
      em2.clear.encrypt trace pt = (.error .keyNotSet, em2.clear) ∧
      em2.clear.decrypt c nonce = .error .keyNotSet ∧
      (em2.clear.encrypt trace pt).1 = (({} : EncryptionManager).encrypt trace pt).1 ∧
      em2.clear.decrypt c nonce = ({} : EncryptionManager).decrypt c nonce := by
  refine ⟨?_, ?_, ?_⟩
  · simp [EncryptionManager.encrypt, hk]
  · simp [EncryptionManager.decrypt, hk]
  · intro em2
    refine ⟨rfl, rfl, ?_, ?_, ?_, ?_⟩ <;>
      simp [EncryptionManager.encrypt, EncryptionManager.decrypt,
        EncryptionManager.clear]

theorem C7_witness :
    ({} : EncryptionManager).key = none ∧
    ({} : EncryptionManager).encrypt (fun _ => []) "x" =
      (.error .keyNotSet, ({} : EncryptionManager)) :=
  ⟨rfl, (C7_no_key_and_clear {} (fun _ => []) "x" ⟨[], 0, [], []⟩ [] rfl).1⟩

/-- C3: with a key set, decrypt inverts encrypt for every plaintext,
including empty and multi-byte text, and the nonce-plus-ciphertext envelope
round-trips exactly as well. -/
theorem C3_roundtrip (em : EncryptionManager) (k : Nat)
    (trace : Nat → List Nat) (T : String) (hk : em.key = some k) :
    (∃ c n em', em.encrypt trace T = (.ok (c, n), em') ∧
      em'.decrypt c n = .ok T ∧ em.decrypt c n = .ok T) ∧
    (∃ env em', em.encryptEnvelope trace T = (.ok env, em') ∧
      em'.decryptEnvelope env = .ok T) := by
  constructor
  · refine ⟨aesgcmEncrypt k (trace em.ctr) (strBytes T), trace em.ctr,
      { em with ctr := em.ctr + 1 }, ?_, ?_, ?_⟩
    · simp [EncryptionManager.encrypt, hk]
    · simp [EncryptionManager.decrypt, hk, aesgcmDecrypt_encrypt,
        Except.map, bytesStr_strBytes]
    · simp [EncryptionManager.decrypt, hk, aesgcmDecrypt_encrypt,
        Except.map, bytesStr_strBytes]
  · refine ⟨(trace em.ctr, aesgcmEncrypt k (trace em.ctr) (strBytes T)),
      { em with ctr := em.ctr + 1 }, ?_, ?_⟩
    · simp [EncryptionManager.encryptEnvelope, EncryptionManager.encrypt, hk]
    · simp [EncryptionManager.decryptEnvelope, EncryptionManager.decrypt, hk,
        aesgcmDecrypt_encrypt, Except.map, bytesStr_strBytes]

theorem C3_witness :
    ({ key := some 7 } : EncryptionManager).key = some 7 ∧
    (∃ c n em',
      ({ key := some 7 } : EncryptionManager).encrypt (fun _ => [1]) "héllo 🔐" =
        (.ok (c, n), em') ∧
      em'.decrypt c n = .ok "héllo 🔐" ∧
      ({ key := some 7 } : EncryptionManager).decrypt c n = .ok "héllo 🔐") :=
  ⟨rfl, (C3_roundtrip { key := some 7 } 7 (fun _ => [1]) "héllo 🔐" rfl).1⟩

/-- C2: for a ciphertext produced under a key derived from passphrase `p`,
flipping any single bit of the ciphertext payload or of the nonce makes
decrypt fail with the one undifferentiated authentication error; decrypting
under a key derived from any other passphrase fails with that same error;
and decryption only ever succeeds on the exact honest encryption of the
value it returns, never on a different but validly-decoded plaintext. -/
theorem C2_tamper_and_wrong_key (em : EncryptionManager)
    (p p' salt salt' : List Nat) (trace : Nat → List Nat) (T : String)
    (i j : Nat) (hk : em.key = some (deriveKeyFn p salt)) (hp : p' ≠ p) :
    ∀ c n em', em.encrypt trace T = (.ok (c, n), em') →
      (i / 8 < c.payload.length →
        em'.decrypt { c with payload := flipBit c.payload i } n =
          .error .invalidTag) ∧
      (j / 8 < n.length →
        em'.decrypt c (flipBit n j) = .error .invalidTag) ∧
      (∀ em2 : EncryptionManager, em2.key = some (deriveKeyFn p' salt') →
        em2.decrypt c n = .error .invalidTag) ∧
      (∀ (em2 : EncryptionManager) (k2 : Nat) (c2 : GCMCipher (List Nat))
          (n2 : List Nat) (t : String), em2.key = some k2 →
        em2.decrypt c2 n2 = .ok t →
        ∃ b, c2 = aesgcmEncrypt k2 n2 b ∧ t = bytesStr b) := by
  intro c n em' henc
  simp only [EncryptionManager.encrypt, hk, Prod.mk.injEq, Except.ok.injEq]
    at henc
  obtain ⟨⟨hc, hn⟩, hem⟩ := henc
  subst hc; subst hn; subst hem
  refine ⟨?_, ?_, ?_, ?_⟩
  · intro hi
    have hne : flipBit (strBytes T) i ≠ strBytes T :=
      flipBit_ne _ i (by simpa [aesgcmEncrypt] using hi)
    simp [EncryptionManager.decrypt, hk, aesgcmDecrypt, aesgcmEncrypt,
      Except.map, Ne.symm hne]
  · intro hj
    have hne : flipBit (trace em.ctr) j ≠ trace em.ctr :=
      flipBit_ne _ j hj
    simp [EncryptionManager.decrypt, hk, aesgcmDecrypt, aesgcmEncrypt,
      Except.map, Ne.symm hne]
  · intro em2 hk2
    have hkne : deriveKeyFn p salt ≠ deriveKeyFn p' salt' := by
      intro h
      exact hp (deriveKeyFn_inj h).1.symm
    simp [EncryptionManager.decrypt, hk2, aesgcmDecrypt, aesgcmEncrypt,
      Except.map, hkne]
  · intro em2 k2 c2 n2 t hk2 hdec
    simp only [EncryptionManager.decrypt, hk2] at hdec
    cases hres : aesgcmDecrypt k2 c2 n2 with
    | ok b =>
      rw [hres] at hdec
      simp only [Except.map, Except.ok.injEq] at hdec
      exact ⟨b, aesgcmDecrypt_sound hres, hdec.symm⟩
    | error e =>
      rw [hres] at hdec
      simp [Except.map] at hdec

theorem C2_witness :
    ([3] : List Nat) ≠ [1] ∧
    EncryptionManager.decrypt
        { key := some (deriveKeyFn [1] [2]), salt := none, ctr := 1 }
        { aesgcmEncrypt (deriveKeyFn [1] [2]) [7] (strBytes "hi") with
            payload := flipBit
              (aesgcmEncrypt (deriveKeyFn [1] [2]) [7] (strBytes "hi")).payload
              0 }
        [7] = .error .invalidTag ∧
    EncryptionManager.decrypt
        { key := some (deriveKeyFn [1] [2]), salt := none, ctr := 1 }
        (aesgcmEncrypt (deriveKeyFn [1] [2]) [7] (strBytes "hi"))
        (flipBit [7] 0) = .error .invalidTag ∧
    EncryptionManager.decrypt { key := some (deriveKeyFn [3] [2]) }
        (aesgcmEncrypt (deriveKeyFn [1] [2]) [7] (strBytes "hi"))
        [7] = .error .invalidTag := by
  have h := C2_tamper_and_wrong_key
    ({ key := some (deriveKeyFn [1] [2]) } : EncryptionManager)
    [1] [3] [2] [2] (fun _ => [7]) "hi" 0 0 rfl (by decide)
    (aesgcmEncrypt (deriveKeyFn [1] [2]) [7] (strBytes "hi")) [7]
    { key := some (deriveKeyFn [1] [2]), salt := none, ctr := 1 } rfl
  exact ⟨by decide, h.1 (by decide), h.2.1 (by decide), h.2.2.1 _ rfl⟩

/-- C4: with a key set, every encrypt call draws the next 12-byte nonce of
the entropy stream, and across any sequence of repeated encrypt calls on
one plaintext under one key, two distinct calls never yield the same nonce
nor the same ciphertext-nonce pair (the ideal-randomness reading of fresh
random nonces: the stream never repeats). -/
theorem C4_nonce_freshness (em : EncryptionManager) (k : Nat)
    (trace : Nat → List Nat) (pt : String) (n i j : Nat)
    (hk : em.key = some k)
    (hinj : ∀ a b : Nat, a ≠ b → trace a ≠ trace b)
    (hlen : ∀ a : Nat, (trace a).length = 12)
    (hi : i < n) (hj : j < n) (hij : i ≠ j) :
    ∃ ci ni cj nj,
      (encryptCalls trace pt em n).1.get? i = some (.ok (ci, ni)) ∧
      (encryptCalls trace pt em n).1.get? j = some (.ok (cj, nj)) ∧
      ni.length = 12 ∧ nj.length = 12 ∧ ni ≠ nj ∧ (ci, ni) ≠ (cj, nj) := by
  have hgi := encryptCalls_get trace pt k em n i hk hi
  have hgj := encryptCalls_get trace pt k em n j hk hj
  have hne : trace (em.ctr + i) ≠ trace (em.ctr + j) := by
    refine hinj _ _ ?_
    intro h
    exact hij (Nat.add_left_cancel h)
  refine ⟨aesgcmEncrypt k (trace (em.ctr + i)) (strBytes pt),
    trace (em.ctr + i),
    aesgcmEncrypt k (trace (em.ctr + j)) (strBytes pt),
    trace (em.ctr + j), hgi, hgj, hlen _, hlen _, hne, ?_⟩
  intro h
  exact hne (congrArg Prod.snd h)

theorem C4_witness :
    ({ key := some 5 } : EncryptionManager).key = some 5 ∧
    (∀ a b : Nat, a ≠ b →
      (fun m => m :: List.replicate 11 0) a ≠
        (fun m => m :: List.replicate 11 0) b) ∧
    (∀ a : Nat, ((fun m => m :: List.replicate 11 0) a).length = 12) ∧
    (∃ ci ni cj nj,
      (encryptCalls (fun m => m :: List.replicate 11 0) "Same text"
          { key := some 5 } 2).1.get? 0 = some (.ok (ci, ni)) ∧
      (encryptCalls (fun m => m :: List.replicate 11 0) "Same text"
          { key := some 5 } 2).1.get? 1 = some (.ok (cj, nj)) ∧
      ni.length = 12 ∧ nj.length = 12 ∧ ni ≠ nj ∧ (ci, ni) ≠ (cj, nj)) := by
  have htr : ∀ a b : Nat, a ≠ b →
      (fun m => m :: List.replicate 11 0) a ≠
        (fun m => m :: List.replicate 11 0) b := by
    intro a b hab h
    injection h with h1 _
    exact hab h1
  have hl : ∀ a : Nat, ((fun m => m :: List.replicate 11 0) a).length = 12 :=
    fun a => rfl
  exact ⟨rfl, htr, hl,
    C4_nonce_freshness { key := some 5 } 5 (fun m => m :: List.replicate 11 0)
      "Same text" 2 0 1 rfl htr hl (by decide) (by decide) (by decide)⟩

/-- C5: is_locked is false immediately after unlock; once elapsed time
since last activity exceeds the timeout it reads true regardless of the
prior explicit unlock; update_activity before expiry while unlocked resets
the inactivity window; update_activity while locked is a no-op; and the CLI
authentication gate serves nothing on an expired session unless
re-authentication succeeds. -/
theorem C5_session_autolock (s : SessionManager) (t now now2 : Nat)
    (c : AppContext) (ok1 : Bool) :
    (s.unlock t).is_locked t = false ∧
    (s.timeout_seconds < now - t → (s.unlock t).is_locked now = true) ∧
    (s.is_locked now = false →
      (s.update_activity now).last_activity = now ∧
      (s.update_activity now).is_locked now2 =
        decide (s.timeout_seconds < now2 - now)) ∧
    (s.is_locked now = true → s.update_activity now = s) ∧
    (c.authenticated = true → c.hasStorage = true → c.session = some s →
      s.is_locked now = true → (checkAuthenticated ok1 false now c).1 = false) := by
  refine ⟨?_, ?_, ?_, ?_, ?_⟩
  · simp [SessionManager.unlock, SessionManager.is_locked]
  · intro h
    simp [SessionManager.unlock, SessionManager.is_locked, h]
  · intro h
    have hparts := h
    simp only [SessionManager.is_locked, Bool.or_eq_false_iff,
      decide_eq_false_iff_not] at hparts
    have hupd : s.update_activity now = { s with last_activity := now } := by
      simp [SessionManager.update_activity, h]
    constructor
    · simp [hupd]
    · rw [hupd]
      simp [SessionManager.is_locked, hparts.1]
  · intro h
    simp [SessionManager.update_activity, h]
  · intro h1 h2 h3 h4
    simp [checkAuthenticated, h1, h2, h3, h4, autoAuthenticate]

theorem C5_witness :
    ((⟨5, true, 0⟩ : SessionManager).unlock 10).is_locked 10 = false ∧
    ((⟨5, true, 0⟩ : SessionManager).unlock 10).is_locked 16 = true ∧
    ((⟨5, false, 10⟩ : SessionManager).update_activity 14).last_activity = 14 ∧
    ((⟨5, false, 10⟩ : SessionManager).update_activity 14).is_locked 18 =
      decide (5 < 18 - 14) ∧
    (⟨5, false, 0⟩ : SessionManager).update_activity 20 = ⟨5, false, 0⟩ ∧
    (checkAuthenticated true false 16 ⟨true, true, some ⟨5, false, 10⟩⟩).1 =
      false := by
  refine ⟨(C5_session_autolock ⟨5, true, 0⟩ 10 16 0 ⟨false, false, none⟩ true).1,
    (C5_session_autolock ⟨5, true, 0⟩ 10 16 0 ⟨false, false, none⟩ true).2.1
      (by decide),
    ((C5_session_autolock ⟨5, false, 10⟩ 0 14 18 ⟨false, false, none⟩ true).2.2.1
      (by decide)).1,
    ((C5_session_autolock ⟨5, false, 10⟩ 0 14 18 ⟨false, false, none⟩ true).2.2.1
      (by decide)).2,
    (C5_session_autolock ⟨5, false, 0⟩ 0 20 0 ⟨false, false, none⟩ true).2.2.2.1
      (by decide),
    (C5_session_autolock ⟨5, false, 10⟩ 0 16 0
        ⟨true, true, some ⟨5, false, 10⟩⟩ true).2.2.2.2 rfl rfl rfl (by decide)⟩

/-- C6: update_entry on an absent id fails not-found (the collection in the
pure model is untouched, no ok state is produced); on a present id it keeps
the stored id and created_at, adopts every other field of the replacement
including cleared optional fields, stamps updated_at to now — strictly
later than the old updated_at under a monotone clock — and persists the new
collection. -/
theorem C6_update_entry (sm : StorageManager) (k : Nat) (i : String)
    (e : PasswordEntry) (hk : sm.key = some k) :
    (∀ now nonce, (∀ x ∈ sm.entries, x.id ≠ i) →
      sm.updateEntry i e now nonce = .error .entryNotFound) ∧
    (∀ pre old post now nonce,
      sm.entries = pre ++ old :: post → old.id = i →
      (∀ x ∈ pre, x.id ≠ i) → (∀ x ∈ post, x.id ≠ i) →
      old.updated_at < now →
      ∃ f2, sm.updateEntry i e now nonce =
          .ok ({ sm with entries := pre ++ { e with id := old.id, created_at := old.created_at, updated_at := now } :: post }, f2) ∧
        f2.cipher = aesgcmEncrypt k f2.nonce
          (pre ++ { e with id := old.id, created_at := old.created_at, updated_at := now } :: post) ∧
        old.updated_at < ({ e with id := old.id, created_at := old.created_at, updated_at := now } : PasswordEntry).updated_at) := by
  constructor
  · intro now nonce hab
    have hany : ¬ sm.entries.any (fun x => x.id == i) = true := by
      simp only [List.any_eq_true, beq_iff_eq]
      rintro ⟨x, hx, hxi⟩
      exact hab x hx hxi
    simp [StorageManager.updateEntry, hk, hany]
  · intro pre old post now nonce hsplit hid hpre hpost hlt
    have hany : sm.entries.any (fun x => x.id == i) = true := by
      rw [hsplit]
      simp [hid]
    have hmap : sm.entries.map (fun oldx =>
        if oldx.id == i then { e with id := oldx.id, created_at := oldx.created_at, updated_at := now } else oldx) =
        pre ++ { e with id := old.id, created_at := old.created_at, updated_at := now } :: post := by
      rw [hsplit, List.map_append, List.map_cons,
        map_id_of_none i _ pre hpre, map_id_of_none i _ post hpost]
      simp [hid]
    refine ⟨⟨sm.salt.getD [], nonce, aesgcmEncrypt k nonce
      (pre ++ { e with id := old.id, created_at := old.created_at, updated_at := now } :: post)⟩, ?_, rfl, hlt⟩
    simp only [StorageManager.updateEntry, hk, hany, eq_self_iff_true, if_true]
    rw [hmap]

theorem C6_witness :
    StorageManager.updateEntry
      ⟨some 9, some [4], [{ id := "a", title := "Old", password := "p", created_at := 1, updated_at := 2 }]⟩
      "zz" { title := "New", password := "q" } 5 [8] =
        .error .entryNotFound ∧
    (∃ f2, StorageManager.updateEntry
        ⟨some 9, some [4], [{ id := "a", title := "Old", password := "p", created_at := 1, updated_at := 2 }]⟩
        "a" { title := "New", password := "q" } 5 [8] =
          .ok ({ StorageManager.mk (some 9) (some [4]) [{ id := "a", title := "Old", password := "p", created_at := 1, updated_at := 2 }] with
            entries := [] ++ { PasswordEntry.mk "" "New" none "q" none "general" none [] 0 0 with id := ({ id := "a", title := "Old", password := "p", created_at := 1, updated_at := 2 } : PasswordEntry).id, created_at := ({ id := "a", title := "Old", password := "p", created_at := 1, updated_at := 2 } : PasswordEntry).created_at, updated_at := 5 } :: [] }, f2) ∧
        f2.cipher = aesgcmEncrypt 9 f2.nonce
          ([] ++ { PasswordEntry.mk "" "New" none "q" none "general" none [] 0 0 with id := ({ id := "a", title := "Old", password := "p", created_at := 1, updated_at := 2 } : PasswordEntry).id, created_at := ({ id := "a", title := "Old", password := "p", created_at := 1, updated_at := 2 } : PasswordEntry).created_at, updated_at := 5 } :: []) ∧
        ({ id := "a", title := "Old", password := "p", created_at := 1, updated_at := 2 } : PasswordEntry).updated_at <
          ({ PasswordEntry.mk "" "New" none "q" none "general" none [] 0 0 with id := ({ id := "a", title := "Old", password := "p", created_at := 1, updated_at := 2 } : PasswordEntry).id, created_at := ({ id := "a", title := "Old", password := "p", created_at := 1, updated_at := 2 } : PasswordEntry).created_at, updated_at := 5 } : PasswordEntry).updated_at) := by
  constructor
  · exact (C6_update_entry
      ⟨some 9, some [4], [{ id := "a", title := "Old", password := "p", created_at := 1, updated_at := 2 }]⟩
      9 "zz" { title := "New", password := "q" } rfl).1 5 [8] (by decide)
  · exact (C6_update_entry
      ⟨some 9, some [4], [{ id := "a", title := "Old", password := "p", created_at := 1, updated_at := 2 }]⟩
      9 "a" { title := "New", password := "q" } rfl).2
      [] { id := "a", title := "Old", password := "p", created_at := 1, updated_at := 2 } [] 5 [8]
      rfl rfl (by simp) (by simp) (by decide)

/-- C9: list_entries returns a snapshot.  In the heap model the returned
list lives in a freshly allocated cell: its contents equal the internal
collection, and any caller overwrite of the returned cell leaves the
internal cell — hence subsequent get_entry and list_entries results —
unchanged. -/
theorem C9_snapshot (h : EntryHeap) (s : StorageObj) (v : List PasswordEntry)
    (i : String) (hv : s.entriesRef < h.next) :
    ((listEntriesRef h s).2.cells (listEntriesRef h s).1 =
      h.cells s.entriesRef) ∧
    (((listEntriesRef h s).2.write (listEntriesRef h s).1 v).cells
        s.entriesRef = h.cells s.entriesRef) ∧
    getEntryRef ((listEntriesRef h s).2.write (listEntriesRef h s).1 v) s i =
      getEntryRef h s i ∧
    ((listEntriesRef ((listEntriesRef h s).2.write (listEntriesRef h s).1 v)
          s).2.cells
        (listEntriesRef ((listEntriesRef h s).2.write (listEntriesRef h s).1 v)
          s).1 = h.cells s.entriesRef) := by
  have hne : s.entriesRef ≠ h.next := Nat.ne_of_lt hv
  refine ⟨?_, ?_, ?_, ?_⟩ <;>
    simp [listEntriesRef, EntryHeap.alloc, EntryHeap.write, getEntryRef, hne]

theorem C9_witness :
    (0 : Nat) < 1 ∧
    getEntryRef
      ((listEntriesRef (⟨1, fun _ => []⟩ : EntryHeap) ⟨0⟩).2.write
        (listEntriesRef (⟨1, fun _ => []⟩ : EntryHeap) ⟨0⟩).1
        [{ title := "X", password := "y" }]) ⟨0⟩ "a" =
      getEntryRef (⟨1, fun _ => []⟩ : EntryHeap) ⟨0⟩ "a" :=
  ⟨by decide,
    (C9_snapshot ⟨1, fun _ => []⟩ ⟨0⟩ [{ title := "X", password := "y" }] "a"
      (by decide)).2.2.1⟩

/-- C10: for an authenticated GET on the entries route, with or without a
search query, the response is built only from the reduced per-entry
projection — a type with no password, notes or tags field — and the whole
response is identical across any two vault states whose entries agree on
everything except the stored password values. -/
theorem C10_web_list_no_password (q : Option String)
    (sm1 sm2 : StorageManager)
    (hpub : List.Forall₂ samePublic sm1.entries sm2.entries) :
    getEntries true q sm1 = getEntries true q sm2 ∧
    (∃ l, getEntries true q sm1 = .ok l ∧
      ∀ x ∈ l, ∃ e2, e2 ∈ sm1.entries ∧ x = entryListItem e2) := by
  constructor
  · cases q with
    | none =>
      simp [getEntries, StorageManager.listEntries, listMap_samePublic hpub]
    | some qs =>
      by_cases hq : qs.isEmpty
      · simp [getEntries, hq, StorageManager.listEntries,
          listMap_samePublic hpub]
      · simp [getEntries, hq, StorageManager.searchEntries,
          searchFilter_samePublic qs hpub]
  · cases q with
    | none =>
      refine ⟨sm1.entries.map entryListItem,
        by simp [getEntries, StorageManager.listEntries], ?_⟩
      intro x hx
      obtain ⟨e2, he2, rfl⟩ := List.mem_map.mp hx
      exact ⟨e2, he2, rfl⟩
    | some qs =>
      by_cases hq : qs.isEmpty
      · refine ⟨sm1.entries.map entryListItem,
          by simp [getEntries, hq, StorageManager.listEntries], ?_⟩
        intro x hx
        obtain ⟨e2, he2, rfl⟩ := List.mem_map.mp hx
        exact ⟨e2, he2, rfl⟩
      · refine ⟨(sm1.entries.filter (entryMatches qs)).map entryListItem,
          by simp [getEntries, hq, StorageManager.searchEntries], ?_⟩
        intro x hx
        obtain ⟨e2, he2, rfl⟩ := List.mem_map.mp hx
        exact ⟨e2, (List.mem_filter.mp he2).1, rfl⟩

theorem C10_witness :
    List.Forall₂ samePublic
      [{ title := "Mail", password := "secret-a" }]
      [{ title := "Mail", password := "secret-b" }] ∧
    getEntries true none
        ⟨none, none, [{ title := "Mail", password := "secret-a" }]⟩ =
      getEntries true none
        ⟨none, none, [{ title := "Mail", password := "secret-b" }]⟩ := by
  have hpub : List.Forall₂ samePublic
      [({ title := "Mail", password := "secret-a" } : PasswordEntry)]
      [({ title := "Mail", password := "secret-b" } : PasswordEntry)] :=
    List.Forall₂.cons ⟨rfl, rfl, rfl, rfl, rfl, rfl, rfl, rfl, rfl⟩
      List.Forall₂.nil
  exact ⟨hpub,
    (C10_web_list_no_password none
      ⟨none, none, [{ title := "Mail", password := "secret-a" }]⟩
      ⟨none, none, [{ title := "Mail", password := "secret-b" }]⟩ hpub).1⟩

/-- C1: initializing a new vault with a passphrase, adding a batch of
entries, discarding the session and re-initializing on the produced file
with the same passphrase succeeds and lists exactly the same entries; while
re-initializing the same file with any other passphrase fails with the
recoverable wrong-passphrase error, producing no open vault and no
entries. -/
theorem C1_vault_persistence (pw q : List Nat)
    (batch : List (PasswordEntry × String × Nat × List Nat))
    (saltR nonceR saltR2 nonceR2 : List Nat) (hq : q ≠ pw) :
    ∃ sm0 f0 sm f,
      StorageManager.initVault pw none saltR nonceR = .ok (sm0, f0) ∧
      addAll sm0 f0 batch = .ok (sm, f) ∧
      sm.listEntries.length = batch.length ∧
      (∃ sm2, StorageManager.initVault pw (some f) saltR2 nonceR2 =
          .ok (sm2, f) ∧ sm2.listEntries = sm.listEntries) ∧
      StorageManager.initVault q (some f) saltR2 nonceR2 =
        .error .invalidMasterPassword := by
  have hg0 : goodState pw ⟨some (deriveKeyFn pw saltR), some saltR, []⟩
      ⟨saltR, nonceR, aesgcmEncrypt (deriveKeyFn pw saltR) nonceR []⟩ :=
    ⟨rfl, rfl, rfl⟩
  obtain ⟨sm, f, hrun, hg, hlen⟩ := addAll_good batch _ _ hg0
  obtain ⟨hk, hs, hc⟩ := hg
  refine ⟨_, _, sm, f, rfl, hrun, ?_, ?_, ?_⟩
  · simpa [StorageManager.listEntries] using hlen
  · refine ⟨⟨some (deriveKeyFn pw f.salt), some f.salt, sm.entries⟩, ?_, rfl⟩
    simp [StorageManager.initVault, hc, aesgcmDecrypt_encrypt]
  · have hkne : deriveKeyFn pw f.salt ≠ deriveKeyFn q f.salt := by
      intro hh
      exact hq (deriveKeyFn_inj hh).1.symm
    simp [StorageManager.initVault, hc, aesgcmDecrypt, aesgcmEncrypt, hkne]

theorem C1_witness :
    ([2] : List Nat) ≠ [1] ∧
    (∃ sm0 f0 sm f,
      StorageManager.initVault [1] none [3] [4] = .ok (sm0, f0) ∧
      addAll sm0 f0 [({ title := "Mail", username := some "a@b.com", password := "p1" }, "id1", 5, [9])] = .ok (sm, f) ∧
      sm.listEntries.length = 1 ∧
      (∃ sm2, StorageManager.initVault [1] (some f) [30] [40] =
          .ok (sm2, f) ∧ sm2.listEntries = sm.listEntries) ∧
      StorageManager.initVault [2] (some f) [30] [40] =
        .error .invalidMasterPassword) :=
  ⟨by decide,
    C1_vault_persistence [1] [2]
      [({ title := "Mail", username := some "a@b.com", password := "p1" }, "id1", 5, [9])]
      [3] [4] [30] [40] (by decide)⟩

end Passw0rts
